import Mathlib

/-!
Shallow embedding of `main.go` of the binance-data repository: a shared
fixed-window rate limiter (`RateLimiter`, `NewRateLimiter`, `Wait`), a page
fetcher (`fetchTrades`), a per-symbol worker loop (`processSymbol`), a date
partitioner (`groupTradesByDate`), and a CSV appender (`saveToCSV`).

Time is modelled as integers (seconds for the rate limiter's clock reads,
milliseconds for trade timestamps).  Network and file-system effects are
modelled by passing the observed outcomes (HTTP results, fetch outcomes,
prior file contents) explicitly.
-/

namespace BinanceData

/-! ## Rate limiter (src/main.go lines 15-56) -/

/-- The `RateLimiter` struct: `count`, `limitPerMin`, `resetTime`
(the mutex is concurrency plumbing and is not part of the state). -/
structure RateLimiter where
  count : ℤ
  limitPerMin : ℤ
  resetTime : ℤ
  deriving Repr, DecidableEq

/-- The window period: `61 * time.Second` (in seconds). -/
def period : ℤ := 61

/-- `NewRateLimiter(limit)` called when the clock reads `now`:
count 0, resetTime `now + 61s` (line 22-27). -/
def newRateLimiter (limit : ℤ) (now : ℤ) : RateLimiter :=
  { count := 0, limitPerMin := limit, resetTime := now + period }

/-- Lines 33-38 of `Wait`: lazy window reset.  `now.After(rl.resetTime)` is a
strict comparison, hence `rl.resetTime < now`. -/
def resetIfExpired (rl : RateLimiter) (now : ℤ) : RateLimiter :=
  if rl.resetTime < now then { rl with count := 0, resetTime := now + period }
  else rl

/-- One iteration of the `for` loop in `Wait` observed at clock time `now`:
reset the window if expired, then grant (increment `count` and return) if
`count < limitPerMin`, otherwise report that the caller must sleep
(`none`).  On a grant, returns the new state and the grant time. -/
def waitStep (rl : RateLimiter) (now : ℤ) : Option (RateLimiter × ℤ) :=
  let rl' := resetIfExpired rl now
  if rl'.count < rl'.limitPerMin then
    some ({ rl' with count := rl'.count + 1 }, now)
  else
    none

/-- A full `Wait()` call whose first loop iteration observes clock time `now`.
If the first iteration cannot grant, the goroutine sleeps until `resetTime`
and keeps looping; the first iteration whose observed time is strictly after
the boundary (modelled as the integer instant `resetTime + 1`) resets the
window and, when `0 < limitPerMin`, grants.  `none` models the case where the
loop never grants (only possible when `limitPerMin ≤ 0`). -/
def wait (rl : RateLimiter) (now : ℤ) : Option (RateLimiter × ℤ) :=
  match waitStep rl now with
  | some r => some r
  | none => waitStep rl (rl.resetTime + 1)

/-- Run a sequence of `Wait` calls observed at the given clock times, logging
for each grant the pair (window boundary `resetTime` the grant was accounted
to, grant time). -/
def runWaits (rl : RateLimiter) : List ℤ → Option (RateLimiter × List (ℤ × ℤ))
  | [] => some (rl, [])
  | n :: rest =>
    match wait rl n with
    | none => none
    | some (rl', g) =>
      match runWaits rl' rest with
      | none => none
      | some (rlf, log) => some (rlf, (rl'.resetTime, g) :: log)

/-- Grant times of a grant log. -/
def grantTimes (log : List (ℤ × ℤ)) : List ℤ := log.map Prod.snd

/-- Number of grants a sliding window `[t, t + period)` observes. -/
def slidingCount (gs : List ℤ) (t : ℤ) : ℕ :=
  gs.countP (fun g => decide (t ≤ g ∧ g < t + period))

/-- Number of grants accounted to the fixed window with boundary `w`. -/
def boundaryCount (log : List (ℤ × ℤ)) (w : ℤ) : ℕ :=
  log.countP (fun e => decide (e.1 = w))

/-! ## Trade records and the fetcher (src/main.go lines 58-105) -/

/-- The `AggTrade` struct decoded from the JSON body. -/
structure AggTrade where
  TradeId : ℤ
  Price : String
  Quantity : String
  FirstId : ℤ
  LastId : ℤ
  Timestamp : ℤ
  IsMaker : Bool
  IsBest : Bool
  deriving Repr, DecidableEq

/-- Typed failure of `fetchTrades`: transport error, non-OK status (with raw
body), or JSON decode error. -/
inductive FetchError where
  | transport (msg : String)
  | apiStatus (status : ℕ) (body : String)
  | decode (msg : String)
  deriving Repr, DecidableEq

/-- The observed outcome of the one HTTP round trip inside `fetchTrades`:
either the transport failed, or a response arrived with a status code, a raw
body, and the result of JSON-decoding that body into `[]AggTrade`
(`none` = malformed). -/
inductive HttpResult where
  | transportErr (msg : String)
  | response (status : ℕ) (body : String) (decoded : Option (List AggTrade))
  deriving Repr, DecidableEq

/-- `fetchTrades` (lines 75-105) as a function of the observed HTTP outcome:
transport failure is returned as-is; a response with `StatusCode != 200`
(`http.StatusOK`) becomes an API error carrying status and body; a decode
failure becomes an error; otherwise the decoded trades are returned. -/
def fetchTrades (r : HttpResult) : Except FetchError (List AggTrade) :=
  match r with
  | .transportErr m => .error (.transport m)
  | .response status body decoded =>
    if status ≠ 200 then .error (.apiStatus status body)
    else
      match decoded with
      | none => .error (.decode "json decode error")
      | some trades => .ok trades

/-- Whether a fetch result is an error. -/
def isErr (r : Except FetchError (List AggTrade)) : Bool :=
  match r with
  | .error _ => true
  | .ok _ => false

/-- The error condition C6 states, following the spec's words: transport
failure, or a status that is not a 2xx success, or a decode failure. -/
def specFetchErrCond (r : HttpResult) : Bool :=
  match r with
  | .transportErr _ => true
  | .response status _ decoded => !(200 ≤ status && status < 300) || decoded.isNone

/-! ## Date partitioner (src/main.go lines 146-162) -/

/-- Days since the Unix epoch of a millisecond timestamp (floor division, as
`time.UnixMilli(...).UTC()` does). -/
def daysFromMillis (ms : ℤ) : ℤ := Int.fdiv ms 86400000

/-- Civil (proleptic Gregorian, UTC) date of a day number counted from
1970-01-01, as (year, month, day); the standard days-to-civil algorithm,
matching Go's `time` package. -/
def civilFromDays (z0 : ℤ) : ℤ × ℤ × ℤ :=
  let z := z0 + 719468
  let era := Int.fdiv z 146097
  let doe := z - era * 146097
  let yoe := (doe - doe / 1460 + doe / 36524 - doe / 146096) / 365
  let y := yoe + era * 400
  let doy := doe - (365 * yoe + yoe / 4 - yoe / 100)
  let mp := (5 * doy + 2) / 153
  let d := doy - (153 * mp + 2) / 5 + 1
  let m := mp + (if mp < 10 then 3 else -9)
  (if m ≤ 2 then y + 1 else y, m, d)

/-- Zero-padding to two digits, as in Go's `Format("01")` / `Format("02")`. -/
def pad2 (n : ℤ) : String :=
  if n < 10 then "0" ++ toString n else toString n

/-- Zero-padding to four digits, as in Go's `Format("2006")` for the year. -/
def pad4 (n : ℤ) : String :=
  if n < 10 then "000" ++ toString n
  else if n < 100 then "00" ++ toString n
  else if n < 1000 then "0" ++ toString n
  else toString n

/-- `time.UnixMilli(ms).UTC().Format("2006-01-02")` (line 150-151). -/
def formatDate (ms : ℤ) : String :=
  match civilFromDays (daysFromMillis ms) with
  | (y, m, d) => pad4 y ++ "-" ++ pad2 m ++ "-" ++ pad2 d

/-- The CSV row built for one trade (lines 152-158): tradeId, price,
quantity, timestamp, isBuyerMaker, with `strconv.FormatInt` /
`strconv.FormatBool` rendered by `toString`. -/
def tradeRecord (t : AggTrade) : List String :=
  [toString t.TradeId, t.Price, t.Quantity, toString t.Timestamp, toString t.IsMaker]

/-- `grouped[dateStr] = append(grouped[dateStr], record)` on an association
list: append to the existing bucket, or create a new bucket at the end. -/
def insertGrouped (m : List (String × List (List String))) (k : String)
    (v : List String) : List (String × List (List String)) :=
  match m with
  | [] => [(k, [v])]
  | (k', vs) :: rest =>
    if k' = k then (k', vs ++ [v]) :: rest
    else (k', vs) :: insertGrouped rest k v

/-- `groupTradesByDate` (lines 146-162): fold each trade into the bucket of
the UTC calendar date of its timestamp.  The Go map's iteration order is
unspecified; the association list fixes first-insertion order, which no
claim depends on. -/
def groupTradesByDate (trades : List AggTrade) : List (String × List (List String)) :=
  trades.foldl (fun m t => insertGrouped m (formatDate t.Timestamp) (tradeRecord t)) []

/-- The bucket of date `d` (empty list when the date has no bucket). -/
def lookupGrouped (m : List (String × List (List String))) (d : String) :
    List (List String) :=
  match m with
  | [] => []
  | (k, vs) :: rest => if k = d then vs else lookupGrouped rest d

/-- Total number of rows over all buckets. -/
def totalRows (m : List (String × List (List String))) : ℕ :=
  (m.map (fun e => e.2.length)).sum

/-! ## CSV writer (src/main.go lines 164-181) -/

/-- The fixed header row (line 175). -/
def csvHeader : List String := ["tradeId", "price", "quantity", "timestamp", "isBuyerMaker"]

/-- Outcome of the `os.Stat` call at line 165: the path exists, the error is
not-exist, or some other error (e.g. permission). -/
inductive StatResult where
  | found
  | notExist
  | statErr
  deriving Repr, DecidableEq

/-- The `os.Stat` outcome consistent with the file's actual contents. -/
def statOf (contents : Option (List (List String))) : StatResult :=
  match contents with
  | none => .notExist
  | some _ => .found

/-- `saveToCSV` (lines 164-181) as a function on the file's contents (a list
of CSV rows, `none` = the path does not exist yet, so `O_CREATE` makes an
empty file): `isNewFile := os.IsNotExist(statErr)`; the header is written
iff `isNewFile`, then all records are appended. -/
def saveToCSV (stat : StatResult) (contents : Option (List (List String)))
    (records : List (List String)) : List (List String) :=
  let isNewFile := stat = StatResult.notExist
  let existing := contents.getD []
  if isNewFile then existing ++ csvHeader :: records
  else existing ++ records

/-- `saveToCSV` when `os.Stat` reports consistently with the contents
(the race-free case). -/
def save (contents : Option (List (List String))) (records : List (List String)) :
    List (List String) :=
  saveToCSV (statOf contents) contents records

/-- A sequence of `saveToCSV` calls on the same path starting from a path
that does not exist, each `os.Stat` consistent with the contents. -/
def foldSave (batches : List (List (List String))) : Option (List (List String)) :=
  batches.foldl (fun c b => some (save c b)) none

/-! ## Symbol worker (src/main.go lines 107-144) -/

/-- What one `fetchTrades` call returned, as observed by the worker loop:
an error or a page of trades. -/
inductive FetchOutcome where
  | fetchErr (msg : String)
  | page (trades : List AggTrade)
  deriving Repr, DecidableEq

/-- Observable trace of a worker run: the `fromId` used by each fetch call
in order, whether the loop reached its `break` (DONE), the final cursor,
and the (date, rows) batches handed to `saveToCSV`. -/
structure WorkerRun where
  fetchFromIds : List ℤ
  done : Bool
  finalFromId : ℤ
  writes : List (String × List (List String))
  deriving Repr, DecidableEq

/-- The `for` loop of `processSymbol` (lines 116-143), driven by the list of
successive fetch outcomes (the list running out models a still-running
worker): on error, sleep and retry with the same cursor; on an empty page,
break (DONE); on a non-empty page, partition and write it, then advance the
cursor to `lastTrade.TradeId + 1`. -/
def processSymbolLoop : List FetchOutcome → ℤ → WorkerRun
  | [], fromId => ⟨[], false, fromId, []⟩
  | .fetchErr _ :: rest, fromId =>
    let r := processSymbolLoop rest fromId
    ⟨fromId :: r.fetchFromIds, r.done, r.finalFromId, r.writes⟩
  | .page [] :: _, fromId => ⟨[fromId], true, fromId, []⟩
  | .page (t :: ts) :: rest, fromId =>
    let lastTrade := (t :: ts).getLast (List.cons_ne_nil t ts)
    let r := processSymbolLoop rest (lastTrade.TradeId + 1)
    ⟨fromId :: r.fetchFromIds, r.done, r.finalFromId,
      groupTradesByDate (t :: ts) ++ r.writes⟩

/-- `processSymbol` starts its cursor at 0 (line 114). -/
def processSymbol (outcomes : List FetchOutcome) : WorkerRun :=
  processSymbolLoop outcomes 0

/-- Whether every trade of the page has sequence id at least `c`. -/
def pageGE (c : ℤ) (p : List AggTrade) : Bool :=
  p.all (fun t => decide (c ≤ t.TradeId))

/-- The upstream source contract relative to the worker's requests: each
non-empty page served for a fetch at cursor `c` contains only ids `≥ c`
(the endpoint's `fromId` semantics), threading the cursor the worker will
use next. -/
def servesFrom : List FetchOutcome → ℤ → Bool
  | [], _ => true
  | .fetchErr _ :: rest, c => servesFrom rest c
  | .page [] :: _, _ => true
  | .page (t :: ts) :: rest, c =>
    pageGE c (t :: ts) &&
      servesFrom rest (((t :: ts).getLast (List.cons_ne_nil t ts)).TradeId + 1)

/-- Two concrete trades used to exercise the worker on an adversarial source:
their ids go backwards (10, then 3). -/
def tradeA : AggTrade := ⟨10, "1", "1", 10, 10, 0, false, false⟩

/-- Second adversarial trade, with id 3. -/
def tradeB : AggTrade := ⟨3, "1", "1", 3, 3, 0, false, false⟩

/-! ## Helper lemmas -/

theorem processSymbolLoop_head_fromId (o : FetchOutcome) (rest : List FetchOutcome)
    (f : ℤ) : (processSymbolLoop (o :: rest) f).fetchFromIds.head? = some f := by
  cases o with
  | fetchErr m => rfl
  | page p => cases p <;> rfl

theorem chain'_le_of_le {a b : ℤ} {l : List ℤ}
    (h : List.Chain' (· ≤ ·) (a :: l)) (hba : b ≤ a) :
    List.Chain' (· ≤ ·) (b :: l) := by
  cases l with
  | nil => simp
  | cons c l' =>
    rw [List.chain'_cons] at h ⊢
    exact ⟨le_trans hba h.1, h.2⟩

theorem wait_cases {rl : RateLimiter} {now : ℤ} {rl' : RateLimiter} {g : ℤ}
    (hw : wait rl now = some (rl', g)) :
    (¬ rl.resetTime < now ∧ rl.count < rl.limitPerMin ∧
      rl' = { rl with count := rl.count + 1 } ∧ g = now) ∨
    (0 < rl.limitPerMin ∧ rl.resetTime < g ∧
      rl' = { count := 1, limitPerMin := rl.limitPerMin, resetTime := g + period }) := by
  by_cases h1 : rl.resetTime < now
  · by_cases h2 : (0 : ℤ) < rl.limitPerMin
    · right
      simp [wait, waitStep, resetIfExpired, h1, h2] at hw
      exact ⟨h2, hw.2 ▸ h1, hw.1.symm ▸ hw.2 ▸ rfl⟩
    · exfalso
      simp [wait, waitStep, resetIfExpired, h1, h2] at hw
  · by_cases h2 : rl.count < rl.limitPerMin
    · left
      simp [wait, waitStep, resetIfExpired, h1, h2] at hw
      exact ⟨h1, h2, hw.1.symm, hw.2.symm⟩
    · by_cases h3 : (0 : ℤ) < rl.limitPerMin
      · right
        simp [wait, waitStep, resetIfExpired, h1, h2, h3,
          show rl.resetTime < rl.resetTime + 1 by omega] at hw
        refine ⟨h3, ?_, ?_⟩
        · omega
        · rw [← hw.1, ← hw.2]
      · exfalso
        simp [wait, waitStep, resetIfExpired, h1, h2, h3,
          show rl.resetTime < rl.resetTime + 1 by omega] at hw

theorem boundaryCount_cons (e : ℤ × ℤ) (log : List (ℤ × ℤ)) (w : ℤ) :
    boundaryCount (e :: log) w = boundaryCount log w + (if e.1 = w then 1 else 0) := by
  simp [boundaryCount, List.countP_cons]

theorem boundaryCount_eq_zero {log : List (ℤ × ℤ)} {w : ℤ}
    (h : ∀ e ∈ log, e.1 ≠ w) : boundaryCount log w = 0 := by
  rw [boundaryCount, List.countP_eq_zero]
  intro e he
  simpa using h e he

/-! ## Claim theorems (part 1) -/

/-- C10: `groupTradesByDate` is total over all pages, the empty one included:
on the empty page it returns the empty mapping, with no date buckets. -/
theorem groupTradesByDate_empty_page : groupTradesByDate [] = [] := rfl

/-- C9: when the pre-open `os.Stat` fails with an error other than not-exist,
`saveToCSV` treats the path as an existing file: no header is written even
when the open in append-create mode creates a fresh (empty) file, so the
resulting file holds data rows with no header. -/
theorem saveToCSV_statErr_no_header (records : List (List String)) :
    saveToCSV StatResult.statErr none records = records ∧
    ((∀ row ∈ records, row ≠ csvHeader) →
      csvHeader ∉ saveToCSV StatResult.statErr none records) := by
  have h0 : saveToCSV StatResult.statErr none records = records := by
    simp [saveToCSV]
  refine ⟨h0, fun h hmem => ?_⟩
  rw [h0] at hmem
  exact h csvHeader hmem rfl

/-- Witness for C9 at a concrete one-row batch. -/
theorem saveToCSV_statErr_no_header_witness :
    csvHeader ∉ saveToCSV StatResult.statErr none [["1", "p", "q", "7", "true"]] :=
  (saveToCSV_statErr_no_header [["1", "p", "q", "7", "true"]]).2 (by decide)

/-- C2: after any completed `Wait` call the state satisfies
`count ≤ limitPerMin`; and the window is reset lazily, on the first `Wait`
iteration whose observed time is strictly after the boundary: the reset sets
`count` to 0 and the boundary to `now + period` (61 seconds). -/
theorem wait_count_le_limit_and_lazy_reset :
    (∀ (rl : RateLimiter) (now : ℤ) (rl' : RateLimiter) (g : ℤ),
      wait rl now = some (rl', g) → rl'.count ≤ rl'.limitPerMin) ∧
    (∀ (rl : RateLimiter) (now : ℤ), rl.resetTime < now →
      (resetIfExpired rl now).count = 0 ∧
      (resetIfExpired rl now).resetTime = now + period) := by
  constructor
  · intro rl now rl' g hw
    rcases wait_cases hw with ⟨_, h2, rfl, rfl⟩ | ⟨hL, _, rfl⟩
    · simpa using by omega
    · simpa using by omega
  · intro rl now h
    simp [resetIfExpired, h]

/-- Witness for C2: a granted `Wait` on a fresh limiter keeps `count ≤ limit`,
and an expired window is reset to `count = 0`, boundary `now + 61`. -/
theorem wait_count_le_limit_and_lazy_reset_witness :
    (({ count := 1, limitPerMin := 5, resetTime := 61 } : RateLimiter).count ≤
      ({ count := 1, limitPerMin := 5, resetTime := 61 } : RateLimiter).limitPerMin) ∧
    ((resetIfExpired { count := 4, limitPerMin := 5, resetTime := 2 } 3).count = 0 ∧
      (resetIfExpired { count := 4, limitPerMin := 5, resetTime := 2 } 3).resetTime =
        3 + period) :=
  ⟨wait_count_le_limit_and_lazy_reset.1 (newRateLimiter 5 0) 3
      { count := 1, limitPerMin := 5, resetTime := 61 } 3 (by decide),
    wait_count_le_limit_and_lazy_reset.2 { count := 4, limitPerMin := 5, resetTime := 2 } 3
      (by decide)⟩

/-- C1 counterexample: with `limitPerMin = 1` and the limiter created at time
0, `Wait` calls observed at times 60 and 61 are granted at times 60 and 62 —
two grants inside the sliding 61-second window starting at 60, exceeding the
limit 1.  The fixed-window reset lets a sliding window straddling a boundary
observe up to two windows' grants. -/
theorem wait_sliding_window_violated :
    (runWaits (newRateLimiter 1 0) [60, 61]).map (fun r => grantTimes r.2) =
      some [60, 62] ∧
    slidingCount [60, 62] 60 = 2 ∧ 1 < slidingCount [60, 62] 60 := by decide

/-- C5 counterexample: a source whose pages go backwards (last id 10, then
last id 3) drives the cursor 0, 11, 4 — not monotonically non-decreasing. -/
theorem processSymbol_cursor_decreases :
    (processSymbol [FetchOutcome.page [tradeA], FetchOutcome.page [tradeB],
      FetchOutcome.page []]).fetchFromIds = [0, 11, 4] ∧
    ¬ List.Chain' (· ≤ ·)
      (processSymbol [FetchOutcome.page [tradeA], FetchOutcome.page [tradeB],
        FetchOutcome.page []]).fetchFromIds := by
  refine ⟨rfl, ?_⟩
  have h : (processSymbol [FetchOutcome.page [tradeA], FetchOutcome.page [tradeB],
      FetchOutcome.page []]).fetchFromIds = [0, 11, 4] := rfl
  rw [h]
  intro hch
  rw [List.chain'_cons, List.chain'_cons] at hch
  exact absurd hch.2.1 (by norm_num)

/-- C6 counterexample: a response with status 201 — a 2xx success — and a
well-formed body makes `fetchTrades` return an error (the code tests
`StatusCode != 200`, not "not a 2xx success"), so the claimed
"error iff transport failure / non-2xx / decode failure" is false. -/
theorem fetchTrades_non2xx_cex :
    isErr (fetchTrades (HttpResult.response 201 "" (some []))) = true ∧
    specFetchErrCond (HttpResult.response 201 "" (some [])) = false := by decide

/-- C6 amended: `fetchTrades` returns an error if and only if the transport
fails, the status code differs from 200 (including all other 2xx codes), or
the body fails to decode; a well-formed empty array with status 200 is a
success carrying zero records. -/
theorem fetchTrades_error_iff (r : HttpResult) :
    (isErr (fetchTrades r) = true ↔
      (∃ m, r = HttpResult.transportErr m) ∨
      (∃ s b d, r = HttpResult.response s b d ∧ s ≠ 200) ∨
      (∃ b, r = HttpResult.response 200 b none)) ∧
    (∀ b, fetchTrades (HttpResult.response 200 b (some [])) = Except.ok []) := by
  constructor
  · cases r with
    | transportErr m => simp [fetchTrades, isErr]
    | response s b d =>
      by_cases hs : s = 200
      · subst hs
        cases d with
        | none => simp [fetchTrades, isErr]
        | some ts => simp [fetchTrades, isErr]
      · simp [fetchTrades, isErr, hs]
  · intro b
    rfl

/-- Witness for C6 (amended) at a concrete 200-with-empty-array response. -/
theorem fetchTrades_error_iff_witness :
    fetchTrades (HttpResult.response 200 "x" (some [])) = Except.ok [] :=
  (fetchTrades_error_iff (HttpResult.response 200 "x" (some []))).2 "x"

/-- C3: a successful empty page is the sole termination condition of the
worker loop — a run whose fetch outcomes contain no empty page never reaches
DONE — and a source returning one non-empty page then an empty page causes
exactly two fetch calls and then DONE. -/
theorem processSymbol_sole_termination :
    (∀ (outcomes : List FetchOutcome) (f : ℤ),
      (∀ o ∈ outcomes, o ≠ FetchOutcome.page []) →
      (processSymbolLoop outcomes f).done = false) ∧
    (∀ (p : List AggTrade) (f : ℤ), p ≠ [] →
      (processSymbolLoop [FetchOutcome.page p, FetchOutcome.page []] f).fetchFromIds.length
          = 2 ∧
      (processSymbolLoop [FetchOutcome.page p, FetchOutcome.page []] f).done = true) := by
  constructor
  · intro outcomes
    induction outcomes with
    | nil => exact fun f _ => rfl
    | cons o rest ih =>
      intro f h
      cases o with
      | fetchErr m =>
        exact ih f fun o ho => h o (List.mem_cons_of_mem _ ho)
      | page p =>
        cases p with
        | nil => exact absurd rfl (h _ (List.mem_cons_self _ _))
        | cons t ts =>
          exact ih _ fun o ho => h o (List.mem_cons_of_mem _ ho)
  · intro p f hp
    match p, hp with
    | t :: ts, _ => exact ⟨rfl, rfl⟩

/-- Witness for C3: one error outcome leaves the worker running; one
non-empty page then an empty page gives two fetches and DONE. -/
theorem processSymbol_sole_termination_witness :
    (processSymbolLoop [FetchOutcome.fetchErr "e"] 0).done = false ∧
    (processSymbolLoop [FetchOutcome.page [tradeA], FetchOutcome.page []]
        0).fetchFromIds.length = 2 ∧
    (processSymbolLoop [FetchOutcome.page [tradeA], FetchOutcome.page []] 0).done = true :=
  ⟨processSymbol_sole_termination.1 [FetchOutcome.fetchErr "e"] 0 (by decide),
    (processSymbol_sole_termination.2 [tradeA] 0 (by decide)).1,
    (processSymbol_sole_termination.2 [tradeA] 0 (by decide)).2⟩

/-- C4: when a worker iteration processes a non-empty page whose last record
has id X, the next fetch call (the second entry of the fetch log) uses
`fromId = X + 1`. -/
theorem processSymbol_next_fromId (p : List AggTrade) (hp : p ≠ [])
    (rest : List FetchOutcome) (hr : rest ≠ []) (f : ℤ) :
    (processSymbolLoop (FetchOutcome.page p :: rest) f).fetchFromIds[1]? =
      some ((p.getLast hp).TradeId + 1) := by
  match p, hp with
  | t :: ts, _ =>
    match rest, hr with
    | o :: rest', _ =>
      show (f :: (processSymbolLoop (o :: rest')
          (((t :: ts).getLast (List.cons_ne_nil t ts)).TradeId + 1)).fetchFromIds)[1]? = _
      rw [List.getElem?_cons_succ, ← List.head?_eq_getElem?,
        processSymbolLoop_head_fromId]

/-- Witness for C4: after the page [tradeA] (last id 10), the next fetch
uses fromId 11. -/
theorem processSymbol_next_fromId_witness :
    (processSymbolLoop [FetchOutcome.page [tradeA], FetchOutcome.page []]
        0).fetchFromIds[1]? = some 11 :=
  processSymbol_next_fromId [tradeA] (by decide) [FetchOutcome.page []] (by decide) 0

/-- Invariant tying a `RateLimiter` state to the log of past grants:
`count` equals the number of grants accounted to the current window
boundary, every boundary has at most `limitPerMin` grants, and no logged
boundary lies beyond the current one. -/
def RLInv (rl : RateLimiter) (log : List (ℤ × ℤ)) : Prop :=
  rl.count = (boundaryCount log rl.resetTime : ℤ) ∧
  (∀ w : ℤ, (boundaryCount log w : ℤ) ≤ rl.limitPerMin) ∧
  (∀ e ∈ log, e.1 ≤ rl.resetTime)

theorem wait_preserves_inv {rl : RateLimiter} {log : List (ℤ × ℤ)} {now : ℤ}
    {rl' : RateLimiter} {g : ℤ}
    (hinv : RLInv rl log) (hw : wait rl now = some (rl', g)) :
    RLInv rl' ((rl'.resetTime, g) :: log) ∧ rl'.limitPerMin = rl.limitPerMin := by
  obtain ⟨hc, hb, hle⟩ := hinv
  rcases wait_cases hw with ⟨h1, h2, rfl, rfl⟩ | ⟨hL, hlt, rfl⟩
  · refine ⟨⟨?_, ?_, ?_⟩, rfl⟩
    · rw [boundaryCount_cons]
      simp only [if_pos rfl]
      push_cast
      omega
    · intro w
      rw [boundaryCount_cons]
      by_cases hw' : rl.resetTime = w
      · subst hw'
        simp only [if_pos rfl]
        push_cast
        omega
      · simpa [hw'] using hb w
    · intro e he
      rcases List.mem_cons.mp he with rfl | he'
      · exact le_refl _
      · exact hle e he'
  · have hp : period = 61 := rfl
    have hzero : boundaryCount log (g + period) = 0 := by
      refine boundaryCount_eq_zero fun e he => ?_
      have h3 := hle e he
      omega
    refine ⟨⟨?_, ?_, ?_⟩, rfl⟩
    · show (1 : ℤ) = (boundaryCount ((g + period, g) :: log) (g + period) : ℤ)
      rw [boundaryCount_cons]
      simp only [if_pos rfl, hzero]
      norm_num
    · intro w
      show (boundaryCount ((g + period, g) :: log) w : ℤ) ≤ rl.limitPerMin
      rw [boundaryCount_cons]
      by_cases hw' : g + period = w
      · subst hw'
        simp only [if_pos rfl, hzero]
        push_cast
        omega
      · simpa [hw'] using hb w
    · intro e he
      rcases List.mem_cons.mp he with rfl | he'
      · exact le_refl _
      · have h3 := hle e he'
        show e.1 ≤ g + period
        omega

theorem runWaits_inv (nows : List ℤ) :
    ∀ (rl : RateLimiter) (past : List (ℤ × ℤ)), RLInv rl past →
      ∀ (rlf : RateLimiter) (log : List (ℤ × ℤ)),
        runWaits rl nows = some (rlf, log) →
        ∀ w : ℤ, (boundaryCount (past ++ log) w : ℤ) ≤ rl.limitPerMin := by
  induction nows with
  | nil =>
    intro rl past hinv rlf log h w
    simp only [runWaits, Option.some.injEq, Prod.mk.injEq] at h
    rw [← h.2]
    simpa using hinv.2.1 w
  | cons n rest ih =>
    intro rl past hinv rlf log h w
    unfold runWaits at h
    cases hwait : wait rl n with
    | none => rw [hwait] at h; simp at h
    | some pr =>
      obtain ⟨rl', g⟩ := pr
      rw [hwait] at h
      dsimp only at h
      cases hrun : runWaits rl' rest with
      | none => rw [hrun] at h; simp at h
      | some pr2 =>
        obtain ⟨rlf', log'⟩ := pr2
        rw [hrun] at h
        simp only [Option.some.injEq, Prod.mk.injEq] at h
        obtain ⟨h1, h2⟩ := h
        subst h2
        have hstep := wait_preserves_inv hinv hwait
        have hb := ih rl' ((rl'.resetTime, g) :: past) hstep.1 rlf' log' hrun w
        rw [hstep.2] at hb
        have hcount : boundaryCount (past ++ (rl'.resetTime, g) :: log') w =
            boundaryCount (((rl'.resetTime, g) :: past) ++ log') w := by
          simp only [boundaryCount, List.countP_append, List.countP_cons]
          omega
        rw [hcount]
        exact hb

/-- C1 amended: the governor enforces a fixed-window cap, not a sliding one.
For any sequence of `Wait` calls on a limiter with `0 < limitPerMin`, no
fixed accounting window (one value of the lazily advanced boundary
`resetTime`) ever grants more than `limitPerMin` requests, and `Wait` only
returns by consuming a slot of the current fixed window; a sliding
61-second window straddling a boundary may observe up to two windows'
grants. -/
theorem rateLimiter_fixed_window_cap (L t0 : ℤ) (nows : List ℤ) (hL : 0 < L)
    (rlf : RateLimiter) (log : List (ℤ × ℤ))
    (h : runWaits (newRateLimiter L t0) nows = some (rlf, log)) (w : ℤ) :
    (boundaryCount log w : ℤ) ≤ L := by
  have hinv : RLInv (newRateLimiter L t0) [] := by
    refine ⟨by simp [newRateLimiter, boundaryCount], fun w => ?_, by simp⟩
    simp only [boundaryCount, List.countP_nil, Nat.cast_zero, newRateLimiter]
    omega
  simpa using runWaits_inv nows (newRateLimiter L t0) [] hinv rlf log h w

/-- Witness for C1 (amended): the two-call trace of the counterexample
still satisfies the fixed-window cap — each boundary carries one grant. -/
theorem rateLimiter_fixed_window_cap_witness :
    (boundaryCount [(61, 60), (123, 62)] 61 : ℤ) ≤ 1 :=
  rateLimiter_fixed_window_cap 1 0 [60, 61] (by norm_num)
    { count := 1, limitPerMin := 1, resetTime := 123 } [(61, 60), (123, 62)]
    (by decide) 61

theorem servesFrom_chain (outcomes : List FetchOutcome) :
    ∀ f : ℤ, servesFrom outcomes f = true →
      List.Chain' (· ≤ ·) (f :: (processSymbolLoop outcomes f).fetchFromIds) := by
  induction outcomes with
  | nil =>
    intro f _
    simp [processSymbolLoop]
  | cons o rest ih =>
    intro f h
    cases o with
    | fetchErr m =>
      have hc := ih f h
      show List.Chain' (· ≤ ·) (f :: f :: (processSymbolLoop rest f).fetchFromIds)
      rw [List.chain'_cons]
      exact ⟨le_refl f, hc⟩
    | page p =>
      cases p with
      | nil =>
        show List.Chain' (· ≤ ·) (f :: [f])
        simp
      | cons t ts =>
        have h' : pageGE f (t :: ts) = true ∧
            servesFrom rest (((t :: ts).getLast (List.cons_ne_nil t ts)).TradeId + 1)
              = true := by
          rw [← Bool.and_eq_true]
          exact h
        have hc := ih (((t :: ts).getLast (List.cons_ne_nil t ts)).TradeId + 1) h'.2
        have hmem := List.getLast_mem (List.cons_ne_nil t ts)
        have hf : f ≤ ((t :: ts).getLast (List.cons_ne_nil t ts)).TradeId :=
          of_decide_eq_true (List.all_eq_true.mp h'.1 _ hmem)
        show List.Chain' (· ≤ ·) (f :: f :: (processSymbolLoop rest
          (((t :: ts).getLast (List.cons_ne_nil t ts)).TradeId + 1)).fetchFromIds)
        rw [List.chain'_cons]
        exact ⟨le_refl f, chain'_le_of_le hc (by omega)⟩

/-- C5 amended: the worker's cursor is initialized to 0 and, provided every
non-empty page the source serves contains only ids at least the requested
cursor (the endpoint's `fromId` contract), the fetch-cursor sequence is
monotonically non-decreasing; an adversarial page with smaller ids makes it
decrease. -/
theorem processSymbol_cursor_monotone (outcomes : List FetchOutcome)
    (h : servesFrom outcomes 0 = true) :
    List.Chain' (· ≤ ·) ((0 : ℤ) :: (processSymbol outcomes).fetchFromIds) ∧
    ((processSymbol outcomes).fetchFromIds = [] ∨
      (processSymbol outcomes).fetchFromIds.head? = some 0) := by
  refine ⟨servesFrom_chain outcomes 0 h, ?_⟩
  cases outcomes with
  | nil => exact Or.inl rfl
  | cons o rest => exact Or.inr (processSymbolLoop_head_fromId o rest 0)

/-- Witness for C5 (amended) on a two-page conforming source. -/
theorem processSymbol_cursor_monotone_witness :
    List.Chain' (· ≤ ·) ((0 : ℤ) :: (processSymbol [FetchOutcome.page [tradeB],
      FetchOutcome.page []]).fetchFromIds) :=
  (processSymbol_cursor_monotone [FetchOutcome.page [tradeB], FetchOutcome.page []]
    (by decide)).1

/-- Keys (date strings) of a grouped mapping. -/
def keysOf (m : List (String × List (List String))) : List String := m.map Prod.fst

theorem lookupGrouped_insertGrouped (m : List (String × List (List String)))
    (k : String) (v : List String) (d : String) :
    lookupGrouped (insertGrouped m k v) d =
      if k = d then lookupGrouped m d ++ [v] else lookupGrouped m d := by
  induction m with
  | nil => by_cases h : k = d <;> simp [insertGrouped, lookupGrouped, h]
  | cons e rest ih =>
    obtain ⟨k', vs⟩ := e
    by_cases h1 : k' = k
    · subst h1
      by_cases h2 : k' = d <;> simp [insertGrouped, lookupGrouped, h2]
    · by_cases h2 : k' = d
      · subst h2
        have h3 : ¬ k = k' := fun hh => h1 hh.symm
        simp [insertGrouped, lookupGrouped, h1, h3]
      · simp [insertGrouped, lookupGrouped, h1, h2, ih]

theorem totalRows_insertGrouped (m : List (String × List (List String)))
    (k : String) (v : List String) :
    totalRows (insertGrouped m k v) = totalRows m + 1 := by
  induction m with
  | nil => simp [insertGrouped, totalRows]
  | cons e rest ih =>
    obtain ⟨k', vs⟩ := e
    by_cases h : k' = k
    · have hstep : insertGrouped ((k', vs) :: rest) k v = (k', vs ++ [v]) :: rest := by
        simp [insertGrouped, h]
      have h1 : totalRows ((k', vs ++ [v]) :: rest) = vs.length + 1 + totalRows rest := by
        simp [totalRows, List.length_append]
        try omega
      have h2 : totalRows ((k', vs) :: rest) = vs.length + totalRows rest := by
        simp [totalRows]
      rw [hstep, h1, h2]
      omega
    · have hstep : insertGrouped ((k', vs) :: rest) k v = (k', vs) :: insertGrouped rest k v := by
        simp [insertGrouped, h]
      have h1 : totalRows ((k', vs) :: insertGrouped rest k v) =
          vs.length + totalRows (insertGrouped rest k v) := by
        simp [totalRows]
      have h2 : totalRows ((k', vs) :: rest) = vs.length + totalRows rest := by
        simp [totalRows]
      rw [hstep, h1, h2, ih]
      omega

theorem mem_keysOf_insertGrouped (m : List (String × List (List String)))
    (k : String) (v : List String) (d : String) :
    d ∈ keysOf (insertGrouped m k v) ↔ d ∈ keysOf m ∨ d = k := by
  induction m with
  | nil => simp [insertGrouped, keysOf]
  | cons e rest ih =>
    obtain ⟨k', vs⟩ := e
    by_cases h : k' = k
    · subst h
      have hstep : insertGrouped ((k', vs) :: rest) k' v = (k', vs ++ [v]) :: rest := by
        simp [insertGrouped]
      rw [hstep]
      simp only [keysOf, List.map_cons, List.mem_cons]
      tauto
    · have hstep : insertGrouped ((k', vs) :: rest) k v =
          (k', vs) :: insertGrouped rest k v := by
        simp [insertGrouped, h]
      rw [hstep]
      simp only [keysOf, List.map_cons, List.mem_cons] at ih ⊢
      rw [ih]
      tauto

theorem keysOf_nodup_insertGrouped (m : List (String × List (List String)))
    (k : String) (v : List String) (h : (keysOf m).Nodup) :
    (keysOf (insertGrouped m k v)).Nodup := by
  induction m with
  | nil => simp [insertGrouped, keysOf]
  | cons e rest ih =>
    obtain ⟨k', vs⟩ := e
    by_cases hk : k' = k
    · simpa [insertGrouped, keysOf, hk] using h
    · simp only [keysOf, List.map_cons, List.nodup_cons] at h
      simp only [insertGrouped, if_neg hk, keysOf, List.map_cons, List.nodup_cons]
      refine ⟨?_, ih h.2⟩
      intro hmem
      rcases (mem_keysOf_insertGrouped rest k v k').mp hmem with hin | heq
      · exact h.1 hin
      · exact hk heq

theorem groupFold_lookup (trades : List AggTrade) :
    ∀ (acc : List (String × List (List String))) (d : String),
      lookupGrouped (trades.foldl
          (fun m t => insertGrouped m (formatDate t.Timestamp) (tradeRecord t)) acc) d =
        lookupGrouped acc d ++
          (trades.filter fun t => decide (formatDate t.Timestamp = d)).map tradeRecord := by
  induction trades with
  | nil => intro acc d; simp
  | cons t rest ih =>
    intro acc d
    rw [List.foldl_cons, ih, lookupGrouped_insertGrouped]
    by_cases h : formatDate t.Timestamp = d
    · simp [List.filter_cons, h]
    · simp [List.filter_cons, h]

theorem groupFold_totalRows (trades : List AggTrade) :
    ∀ acc : List (String × List (List String)),
      totalRows (trades.foldl
          (fun m t => insertGrouped m (formatDate t.Timestamp) (tradeRecord t)) acc) =
        totalRows acc + trades.length := by
  induction trades with
  | nil => intro acc; simp
  | cons t rest ih =>
    intro acc
    rw [List.foldl_cons, ih, totalRows_insertGrouped, List.length_cons]
    omega

theorem groupFold_keys_nodup (trades : List AggTrade) :
    ∀ acc : List (String × List (List String)), (keysOf acc).Nodup →
      (keysOf (trades.foldl
        (fun m t => insertGrouped m (formatDate t.Timestamp) (tradeRecord t)) acc)).Nodup := by
  induction trades with
  | nil => intro acc h; simpa using h
  | cons t rest ih =>
    intro acc h
    rw [List.foldl_cons]
    exact ih _ (keysOf_nodup_insertGrouped acc _ _ h)

/-- C7: `groupTradesByDate` is a pure function of the page; for every
non-empty page, the total number of rows over all buckets equals the page
length, the date keys are pairwise distinct (so each record lands in exactly
one bucket), the bucket of each date `d` is exactly the records whose UTC
calendar date is `d`, in original page order, and ms = 1700000000000 maps to
bucket "2023-11-14". -/
theorem groupTradesByDate_spec (trades : List AggTrade) (_hne : trades ≠ []) :
    totalRows (groupTradesByDate trades) = trades.length ∧
    (keysOf (groupTradesByDate trades)).Nodup ∧
    (∀ d : String,
      lookupGrouped (groupTradesByDate trades) d =
        (trades.filter fun t => decide (formatDate t.Timestamp = d)).map tradeRecord) ∧
    formatDate 1700000000000 = "2023-11-14" := by
  refine ⟨?_, ?_, ?_, ?_⟩
  · simpa [groupTradesByDate, totalRows] using groupFold_totalRows trades []
  · exact groupFold_keys_nodup trades [] (by simp [keysOf])
  · intro d
    simpa [groupTradesByDate, lookupGrouped] using groupFold_lookup trades [] d
  · rfl

/-- Witness for C7 on a one-trade page at the spec's example timestamp. -/
theorem groupTradesByDate_spec_witness :
    totalRows (groupTradesByDate [⟨1, "p", "q", 1, 1, 1700000000000, true, false⟩]) = 1 ∧
    formatDate 1700000000000 = "2023-11-14" :=
  ⟨(groupTradesByDate_spec [⟨1, "p", "q", 1, 1, 1700000000000, true, false⟩]
      (by simp)).1,
    (groupTradesByDate_spec [⟨1, "p", "q", 1, 1, 1700000000000, true, false⟩]
      (by simp)).2.2.2⟩

theorem foldSave_from_existing (bs : List (List (List String))) :
    ∀ L : List (List String),
      bs.foldl (fun c b => some (save c b)) (some L) = some (L ++ bs.flatten) := by
  induction bs with
  | nil => intro L; simp
  | cons b rest ih =>
    intro L
    rw [List.foldl_cons]
    have hs : save (some L) b = L ++ b := rfl
    rw [hs, ih, List.flatten_cons, List.append_assoc]

/-- C8: `saveToCSV` on a path that does not yet exist writes exactly one
header line followed by the data rows; every later call on the now-existing
path appends only data rows; hence over any sequence of batches the file is
the header followed by all data rows, and (data rows never equalling the
header row) the header appears exactly once, at first creation. -/
theorem saveToCSV_header_once (b : List (List String)) (bs : List (List (List String))) :
    foldSave (b :: bs) = some (csvHeader :: (b :: bs).flatten) ∧
    ((∀ row ∈ (b :: bs).flatten, row ≠ csvHeader) →
      (csvHeader :: (b :: bs).flatten).count csvHeader = 1) := by
  constructor
  · rw [foldSave, List.foldl_cons]
    have hs : save none b = csvHeader :: b := rfl
    rw [hs, foldSave_from_existing, List.flatten_cons]
    rfl
  · intro h
    have h0 : (b :: bs).flatten.count csvHeader = 0 :=
      List.count_eq_zero.mpr fun hmem => h _ hmem rfl
    rw [List.count_cons, h0]
    simp

/-- Witness for C8 over two concrete one-row batches. -/
theorem saveToCSV_header_once_witness :
    foldSave [[["1", "p", "q", "7", "true"]], [["2", "p", "q", "8", "false"]]] =
      some (csvHeader ::
        ([[["1", "p", "q", "7", "true"]], [["2", "p", "q", "8", "false"]]] :
          List (List (List String))).flatten) ∧
    (csvHeader ::
        ([[["1", "p", "q", "7", "true"]], [["2", "p", "q", "8", "false"]]] :
          List (List (List String))).flatten).count csvHeader = 1 :=
  ⟨(saveToCSV_header_once [["1", "p", "q", "7", "true"]]
      [[["2", "p", "q", "8", "false"]]]).1,
    (saveToCSV_header_once [["1", "p", "q", "7", "true"]]
      [[["2", "p", "q", "8", "false"]]]).2 (by decide)⟩

end BinanceData
